import Mathlib

/-!
Shallow embedding of the message-squashing engine of `sqaush.py`.

Message text is modelled as `List Char` (Python `str`); a chat is a list of
messages in store order, newest first, exactly as `iter_messages` yields them.
Every store call (edit / delete / archive write) is recorded in a trace of
`StoreCall`s; a `Failures` record says which fallible call sites raise during one
handler invocation, mirroring the `try/except` structure of the source.  Chat
state is updated only by calls that succeed.
-/

/-- Python `str` as a list of characters. -/
abbrev Text := List Char

/-- `MARKER = "\n<<<"` (sqaush.py line 24). -/
def MARKER : Text := "\n<<<".data

/-- A chat message as the handlers see it: the Telethon `Message` restricted to
the fields the engine reads (`id`, `text`, `media`, `fwd_from`, `out`). -/
structure Message where
  id : Nat
  text : Text
  media : Bool
  fwd_from : Bool
  out : Bool
deriving DecidableEq

/-- `is_plain_text` (line 117-119): non-empty text, no media, no forward. -/
def is_plain_text (m : Message) : Bool :=
  !m.text.isEmpty && !m.media && !m.fwd_from

/-- `text.endswith(MARKER)`. -/
def endsWithMarker (t : Text) : Bool := MARKER.isSuffixOf t

/-- Python `t[:-n]`: drop the last `n` characters. -/
def dropLastN (t : Text) (n : Nat) : Text := t.take (t.length - n)

/-- The per-message marker cleanup of the squash pipeline (lines 208-212):
strip one trailing marker if present. -/
def stripOnce (t : Text) : Text :=
  if endsWithMarker t then dropLastN t MARKER.length else t

/-- Python `"\n".join texts`. -/
def joinNL : List Text → Text
  | [] => []
  | [t] => t
  | t :: ts => t ++ '\n' :: joinNL ts

/-- A call issued to the Message Store or to the archive database.  `ok` is
`false` when the call raised; per the source every such exception is caught at
the call site or at the handler level. -/
inductive StoreCall where
  | edit (msgId : Nat) (newText : Text) (ok : Bool)
  | delete (msgIds : List Nat) (ok : Bool)
  | archive (msgIds : List Nat) (ok : Bool)
deriving DecidableEq

/-- Is this action an edit call? -/
def StoreCall.isEdit : StoreCall → Bool
  | .edit _ _ _ => true
  | _ => false

/-- Is this action a delete call? -/
def StoreCall.isDelete : StoreCall → Bool
  | .delete _ _ => true
  | _ => false

/-- Is this action an archive write? -/
def StoreCall.isArchive : StoreCall → Bool
  | .archive _ _ => true
  | _ => false

/-- Which fallible call sites raise during one handler invocation. -/
structure Failures where
  archive : Bool := false
  delete : Bool := false
  stripEdit : Bool := false
  prevEdit : Bool := false
  eventEdit : Bool := false
  targetEdit : Bool := false
deriving DecidableEq

/-- No call site fails. -/
def noFail : Failures := {}

/-- Chat state after a successful `edit(message_id, text)`. -/
def editMsg (chat : List Message) (i : Nat) (t : Text) : List Message :=
  chat.map fun m => if m.id = i then { m with text := t } else m

/-- Chat state after a successful `delete_messages(ids)`. -/
def deleteMsgs (chat : List Message) (ids : List Nat) : List Message :=
  chat.filter fun m => !ids.contains m.id

/-- `archive_messages` (lines 57-94): one batched insert attempt; a database
failure is caught inside the function and only printed (`CRITICAL: Failed to
archive messages to DB`), so the function always returns normally, telling the
caller nothing.  On an empty batch no write is attempted. -/
def archive_messages (f : Failures) (msgs : List Message) : List StoreCall :=
  if msgs.isEmpty then []
  else [StoreCall.archive (msgs.map (·.id)) (!f.archive)]

/-- `safe_delete` (lines 96-115): archive, then delete.  `archive_messages`
never raises, and the delete call's exception is caught at line 114, so
`safe_delete` always returns normally.  In dry-run it only prints. -/
def safe_delete (f : Failures) (dry : Bool) (msgs : List Message)
    (chat : List Message) : List StoreCall × List Message :=
  if msgs.isEmpty then ([], chat)
  else if dry then ([], chat)
  else
    let acts := archive_messages f msgs ++ [StoreCall.delete (msgs.map (·.id)) (!f.delete)]
    if f.delete then (acts, chat) else (acts, deleteMsgs chat (msgs.map (·.id)))

/-- The window scanned by `strip_marker_from_last_message`:
`iter_messages(chat_id, from_user='me', limit=10)` — the 10 newest messages of
the chat sent by self. -/
def selfWindow (chat : List Message) : List Message :=
  (chat.filter (·.out)).take 10

/-- The test of line 124: `msg.text and msg.text.endswith(MARKER)`. -/
def isMarked (m : Message) : Bool := !m.text.isEmpty && endsWithMarker m.text

/-- `strip_marker_from_last_message` (lines 121-131): find the newest marked
self message in the window and strip its marker; the edit failure is caught
(lines 129-130) and the scan stops at the first hit either way. -/
def strip_marker_from_last_message (f : Failures) (chat : List Message) :
    List StoreCall × List Message :=
  match (selfWindow chat).find? isMarked with
  | none => ([], chat)
  | some msg =>
    let new_text := dropLastN msg.text MARKER.length
    if f.stripEdit then ([StoreCall.edit msg.id new_text false], chat)
    else ([StoreCall.edit msg.id new_text true], editMsg chat msg.id new_text)

/-- Line 256 of the watcher: `event.text.startswith('!squash') or
event.text.lower().startswith('!autosquash')`. -/
def is_command_text (t : Text) : Bool :=
  ("!squash".data).isPrefixOf t ||
    ("!autosquash".data).isPrefixOf (t.map Char.toLower)

/-- `event.edit(event.text + MARKER)` under its `try/except` (lines 306, 314,
320): mark the new message as the chain anchor. -/
def mark_event (f : Failures) (event : Message) (chat : List Message) :
    List StoreCall × List Message :=
  if f.eventEdit then ([StoreCall.edit event.id (event.text ++ MARKER) false], chat)
  else ([StoreCall.edit event.id (event.text ++ MARKER) true],
        editMsg chat event.id (event.text ++ MARKER))

/-- The merge text of lines 292-293:
`f"{clean_prev_text}\n{event.text}{MARKER}"`. -/
def merge_combined (prev event : Message) : Text :=
  dropLastN prev.text MARKER.length ++ '\n' :: (event.text ++ MARKER)

/-- `autosquash_watcher` (lines 254-323) acting on the chat `event :: older`
(the freshly sent outgoing event is the newest message; `older` is the history
below it, newest first).  Returns the trace of store calls and the resulting
chat.  A failed merge edit falls into the `except` branch which starts a new
chain on the event (lines 303-307); rotation (lines 308-316) strips the old
anchor and marks the event, each under its own `try`. -/
def autosquash_watcher (enabled dry : Bool) (f : Failures) (event : Message)
    (older : List Message) : List StoreCall × List Message :=
  let chat := event :: older
  if is_command_text event.text then ([], chat)
  else if !enabled then ([], chat)
  else if dry then ([], chat)
  else if !is_plain_text event then strip_marker_from_last_message f chat
  else
    match older.head? with
    | some prev =>
      if prev.out && is_plain_text prev && endsWithMarker prev.text then
        let clean_prev := dropLastN prev.text MARKER.length
        let combined := clean_prev ++ '\n' :: (event.text ++ MARKER)
        if combined.length ≤ 4096 then
          if f.prevEdit then
            let r := mark_event f event chat
            (StoreCall.edit prev.id combined false :: r.1, r.2)
          else
            let chat1 := editMsg chat prev.id combined
            let r := safe_delete f false [event] chat1
            (StoreCall.edit prev.id combined true :: r.1, r.2)
        else
          if f.prevEdit then
            let r := mark_event f event chat
            (StoreCall.edit prev.id clean_prev false :: r.1, r.2)
          else
            let chat1 := editMsg chat prev.id clean_prev
            let r := mark_event f event chat1
            (StoreCall.edit prev.id clean_prev true :: r.1, r.2)
      else
        mark_event f event chat
    | none => mark_event f event chat

/-- Fixed-n collection (lines 185-190): walk the n-window of self messages
newest first, aborting (`none`) at the first non-plain-text one. -/
def collect_fixed : List Message → Option (List Message)
  | [] => some []
  | m :: rest => if is_plain_text m then (collect_fixed rest).map (m :: ·) else none

/-- Smart collection (lines 193-197): walk history newest first, keeping
outgoing plain-text messages, stopping at the first other message. -/
def collect_smart : List Message → List Message
  | [] => []
  | m :: rest => if m.out && is_plain_text m then m :: collect_smart rest else []

/-- The messages `squash_handler` has collected when the merge phase starts:
`some collected` (newest first), or `none` when the handler merely deletes the
command message (`n < 1`, line 181, or a fixed-n abort, line 186). -/
def squash_collected (older : List Message) : Option Nat → Option (List Message)
  | some n => if n < 1 then none else collect_fixed ((older.filter (·.out)).take n)
  | none => some (collect_smart (older.take 100))

/-- The merge phase of `squash_handler` (lines 199-240), given the collected
messages newest first; `event` is the command message and `chat` the full chat.
The oldest collected message is the edit target; a failing target edit escapes
to the handler-level `except` (line 242), so nothing further happens. -/
def squash_core (dry : Bool) (f : Failures) (event : Message)
    (chat : List Message) (collected : List Message) : List StoreCall × List Message :=
  match collected.reverse with
  | [] => safe_delete f dry [event] chat
  | target :: rest =>
    let combined := joinNL ((target :: rest).map fun m => stripOnce m.text)
    if 4096 < combined.length then safe_delete f dry [event] chat
    else if dry then ([], chat)
    else if combined ≠ target.text then
      if f.targetEdit then ([StoreCall.edit target.id combined false], chat)
      else
        let chat1 := editMsg chat target.id combined
        let r := safe_delete f false (rest ++ [event]) chat1
        (StoreCall.edit target.id combined true :: r.1, r.2)
    else
      safe_delete f false (rest ++ [event]) chat

/-- `squash_handler` (lines 170-243) on the chat `event :: older`, with the
already-parsed optional count argument `nOpt`. -/
def squash_handler (dry : Bool) (f : Failures) (event : Message)
    (older : List Message) (nOpt : Option Nat) : List StoreCall × List Message :=
  match squash_collected older nOpt with
  | none => safe_delete f dry [event] (event :: older)
  | some collected => squash_core dry f event (event :: older) collected

/-- `toggle_autosquash` (lines 147-166) on the chat `event :: older`; returns
the new global flag along with the trace and chat.  The status edit (lines
155/159) has no `try` and no dry-run guard, and the off-branch marker cleanup
(line 162) is likewise unguarded; only the final `safe_delete` of the command
message honours dry-run. -/
def toggle_autosquash (dry : Bool) (f : Failures) (mode_on : Bool)
    (event : Message) (older : List Message) :
    Bool × List StoreCall × List Message :=
  let chat := event :: older
  if mode_on then
    let status := "`Autosquash Enabled. New messages will be merged.`".data
    let chat1 := editMsg chat event.id status
    let r := safe_delete f dry [{ event with text := status }] chat1
    (true, StoreCall.edit event.id status true :: r.1, r.2)
  else
    let status := "`Autosquash Disabled.`".data
    let chat1 := editMsg chat event.id status
    let s := strip_marker_from_last_message f chat1
    let r := safe_delete f dry [{ event with text := status }] s.2
    (false, StoreCall.edit event.id status true :: (s.1 ++ r.1), r.2)

/-- `incoming_boundary_handler` (lines 246-251): on an incoming message, when
the mode is enabled, close the chat's open chain.  `chat` is the chat with the
incoming event at its head. -/
def incoming_boundary_handler (enabled : Bool) (f : Failures)
    (chat : List Message) : List StoreCall × List Message :=
  if !enabled then ([], chat) else strip_marker_from_last_message f chat

/-- Python `\s` restricted to ASCII whitespace. -/
def isSpaceChar (c : Char) : Bool :=
  c = ' ' || c = '\t' || c = '\n' || c = '\r' || c = '\x0b' || c = '\x0c'

/-- Python `\d`. -/
def isDigitChar (c : Char) : Bool := '0' ≤ c && c ≤ '9'

/-- Python `int` on a digit string. -/
def digitsToNat (ds : Text) : Nat :=
  ds.foldl (fun n c => n * 10 + (c.toNat - '0'.toNat)) 0

/-- Anchored literal match: `some rest` iff `p` starts `t`. -/
def matchPre (p t : Text) : Option Text :=
  if p.isPrefixOf t then some (t.drop p.length) else none

/-- The `!squash` dispatch regex of line 169, `^!squash(?:\s+(\d+))?\s*$`, as a
deterministic matcher (greedy runs coincide with the regex here): `none` = no
match, `some none` = bare `!squash`, `some (some n)` = `!squash n`.  The
pattern carries no `(?i)` flag, so it is case-sensitive. -/
def matchSquashCmd (t : Text) : Option (Option Nat) :=
  match matchPre ("!squash".data) t with
  | none => none
  | some rest =>
    let ws := rest.takeWhile isSpaceChar
    let r1 := rest.dropWhile isSpaceChar
    let ds := r1.takeWhile isDigitChar
    let r2 := r1.dropWhile isDigitChar
    if !ws.isEmpty && !ds.isEmpty && r2.all isSpaceChar then
      some (some (digitsToNat ds))
    else if rest.all isSpaceChar then some none
    else none

/-- The `!autosquash` dispatch regex of line 147,
`(?i)^!autosquash\s+(on|off)$`: `some true` = on, `some false` = off.  The
`(?i)` flag makes it case-insensitive, modelled by lowercasing the text. -/
def matchAutosquashCmd (t : Text) : Option Bool :=
  match matchPre ("!autosquash".data) (t.map Char.toLower) with
  | none => none
  | some rest =>
    if (rest.takeWhile isSpaceChar).isEmpty then none
    else
      let r1 := rest.dropWhile isSpaceChar
      if r1 = "on".data then some true
      else if r1 = "off".data then some false
      else none

/-- The oldest collected message (the edit target of lines 214/227), the
remaining collected messages, and the combined text (line 216) the squash
engine would produce, when the merge phase is reached at all. -/
def squash_merge_plan (older : List Message) (nOpt : Option Nat) :
    Option (Message × List Message × Text) :=
  match squash_collected older nOpt with
  | none => none
  | some collected =>
    match collected.reverse with
    | [] => none
    | target :: rest =>
      some (target, rest, joinNL ((target :: rest).map fun m => stripOnce m.text))

/-- Failure scenario: the archive database write raises. -/
def failArchive : Failures := { noFail with archive := true }

/-- Failure scenario: the squash target edit raises. -/
def failTargetEdit : Failures := { noFail with targetEdit := true }

/-- Failure scenario: the watcher's previous-message edit raises. -/
def failPrevEdit : Failures := { noFail with prevEdit := true }

/-! ### Concrete messages used by witnesses and counterexamples -/

/-- A plain outgoing message, used by the safe-delete evaluation. -/
def c1msg : Message := ⟨7, "x".data, false, false, true⟩

/-- An open chain anchor that is not the most recent message of its chat. -/
def c2anchor : Message := ⟨31, "a".data ++ MARKER, false, false, true⟩

/-- An outgoing message starting with `!squash` that matches no command
pattern; the watcher skips it, so it separates the anchor from new traffic. -/
def c2mid : Message := ⟨32, "!squashx".data, false, false, true⟩

/-- A fresh plain outgoing message. -/
def c2new : Message := ⟨33, "hello".data, false, false, true⟩

/-- A 4093-character outgoing plain-text message (the transport allows texts up
to 4096 characters). -/
def bigText : Text := List.replicate 4093 'a'

/-- The big message as a freshly sent outgoing event. -/
def bigEvent : Message := ⟨21, bigText, false, false, true⟩

/-- A small marked anchor directly above `bigEvent`. -/
def prevAnchor : Message := ⟨20, "p".data ++ MARKER, false, false, true⟩

/-- Dry-run toggle scenario: the `!autosquash on` command message. -/
def w4cmd : Message := ⟨61, "!autosquash on".data, false, false, true⟩

/-- Dry-run toggle scenario: the `!autosquash off` command message. -/
def w4off : Message := ⟨62, "!autosquash off".data, false, false, true⟩

/-- Dry-run toggle scenario: the chat's open chain anchor. -/
def w4marked : Message := ⟨63, "note".data ++ MARKER, false, false, true⟩

/-- Fixed-n scenario, oldest of the three recent outgoing messages. -/
def w5a : Message := ⟨11, "aa".data, false, false, true⟩

/-- Fixed-n scenario, middle message, carrying media. -/
def w5b : Message := ⟨12, "bb".data, true, false, true⟩

/-- Fixed-n scenario, newest of the three recent outgoing messages. -/
def w5c : Message := ⟨13, "cc".data, false, false, true⟩

/-- Fixed-n scenario, the `!squash 3` command message. -/
def w5cmd : Message := ⟨14, "!squash 3".data, false, false, true⟩

/-- Smart-squash scenario messages A,B,C (outgoing plain text, oldest first),
D (incoming) and E (outgoing plain text, newest). -/
def w6a : Message := ⟨41, "A".data, false, false, true⟩

/-- Smart-squash scenario message B. -/
def w6b : Message := ⟨42, "B".data, false, false, true⟩

/-- Smart-squash scenario message C. -/
def w6c : Message := ⟨43, "C".data, false, false, true⟩

/-- Smart-squash scenario incoming message D. -/
def w6d : Message := ⟨44, "D".data, false, false, false⟩

/-- Smart-squash scenario message E. -/
def w6e : Message := ⟨45, "E".data, false, false, true⟩

/-- Command-cleanup scenario: an older outgoing plain message. -/
def w7a : Message := ⟨71, "a7".data, false, false, true⟩

/-- Command-cleanup scenario: a newer outgoing plain message. -/
def w7b : Message := ⟨72, "b7".data, false, false, true⟩

/-- Command-cleanup scenario: the `!squash` command message. -/
def w7cmd : Message := ⟨73, "!squash".data, false, false, true⟩

/-- No-op merge scenario: the single collected message. -/
def w8a : Message := ⟨51, "hello".data, false, false, true⟩

/-- No-op merge scenario: the `!squash` command message. -/
def w8cmd : Message := ⟨52, "!squash".data, false, false, true⟩

/-- Strip scenario: the newest marked self message. -/
def w10marked : Message := ⟨2, "hi".data ++ MARKER, false, false, true⟩

/-- Strip scenario: an older marked self message that must stay untouched. -/
def w10old : Message := ⟨1, "yo".data ++ MARKER, false, false, true⟩

/-- Merge witness scenario: the marked previous message. -/
def w3prev : Message := ⟨81, "one".data ++ MARKER, false, false, true⟩

/-- Merge witness scenario: the freshly sent plain message. -/
def w3event : Message := ⟨82, "two".data, false, false, true⟩

/-- Chain-exclusivity witness: an incoming message at the head of a chat. -/
def w2in : Message := ⟨91, "ping".data, false, false, false⟩

/-- Chain-exclusivity witness: the chat's single marked anchor. -/
def w2anchor : Message := ⟨92, "base".data ++ MARKER, false, false, true⟩

/-- Chain-exclusivity witness: a freshly sent plain outgoing message. -/
def w2event : Message := ⟨93, "new".data, false, false, true⟩

/-- Chain-exclusivity witness: a `!squash` command message. -/
def w2cmd : Message := ⟨94, "!squash".data, false, false, true⟩

/-! ### Helper lemmas about the embedded operations -/

/-- Number of messages in a chat whose text carries the marker suffix. -/
def markedCount (chat : List Message) : Nat :=
  chat.countP fun m => endsWithMarker m.text

theorem endsWithMarker_exists {t : Text} (h : endsWithMarker t = true) :
    ∃ p, t = p ++ MARKER := by
  rw [endsWithMarker, List.isSuffixOf_iff_suffix] at h
  obtain ⟨p, hp⟩ := h
  exact ⟨p, hp.symm⟩

theorem endsWithMarker_append (t : Text) : endsWithMarker (t ++ MARKER) = true := by
  rw [endsWithMarker, List.isSuffixOf_iff_suffix]
  exact List.suffix_append t MARKER

theorem dropLastN_append {p q : Text} : dropLastN (p ++ q) q.length = p := by
  rw [dropLastN, List.length_append, Nat.add_sub_cancel, List.take_left]

theorem strip_append_marker {t : Text} (h : endsWithMarker t = true) :
    dropLastN t MARKER.length ++ MARKER = t := by
  obtain ⟨p, rfl⟩ := endsWithMarker_exists h
  rw [dropLastN_append]

theorem editMsg_cons (m : Message) (l : List Message) (i : Nat) (t : Text) :
    editMsg (m :: l) i t
      = (if m.id = i then { m with text := t } else m) :: editMsg l i t := rfl

theorem editMsg_of_forall_ne {l : List Message} {i : Nat} {t : Text}
    (h : ∀ m ∈ l, m.id ≠ i) : editMsg l i t = l := by
  induction l with
  | nil => rfl
  | cons a l ih =>
    rw [editMsg_cons, if_neg (h a (List.mem_cons_self a l)),
      ih fun m hm => h m (List.mem_cons_of_mem a hm)]

theorem markedCount_cons (m : Message) (l : List Message) :
    markedCount (m :: l)
      = markedCount l + if endsWithMarker m.text then 1 else 0 :=
  List.countP_cons _ m l

theorem markedCount_editMsg_le {l : List Message} {i : Nat} {t : Text}
    (h : ∀ m ∈ l, m.id = i → endsWithMarker t = true → endsWithMarker m.text = true) :
    markedCount (editMsg l i t) ≤ markedCount l := by
  induction l with
  | nil => exact Nat.le_refl _
  | cons a l ih =>
    rw [editMsg_cons, markedCount_cons, markedCount_cons]
    have hl := ih fun m hm => h m (List.mem_cons_of_mem a hm)
    have ha := h a (List.mem_cons_self a l)
    split
    · rename_i hid
      have hx : (if endsWithMarker t = true then 1 else 0)
          ≤ if endsWithMarker a.text = true then 1 else 0 := by
        by_cases hm : endsWithMarker t
        · rw [if_pos hm, if_pos (ha hid hm)]
        · simp [hm]
      have hgoal : markedCount (editMsg l i t) +
            (if endsWithMarker t = true then 1 else 0)
          ≤ markedCount l + if endsWithMarker a.text = true then 1 else 0 := by
        omega
      exact hgoal
    · omega

theorem markedCount_editMsg_le_of_unmarked {l : List Message} {i : Nat} {t : Text}
    (h : endsWithMarker t = false) :
    markedCount (editMsg l i t) ≤ markedCount l :=
  markedCount_editMsg_le fun _ _ _ hm => absurd hm (by simp [h])

theorem markedCount_deleteMsgs_le (l : List Message) (ids : List Nat) :
    markedCount (deleteMsgs l ids) ≤ markedCount l :=
  List.Sublist.countP_le _ (List.filter_sublist l)

theorem markedCount_safe_delete_le (f : Failures) (dry : Bool)
    (msgs chat : List Message) :
    markedCount (safe_delete f dry msgs chat).2 ≤ markedCount chat := by
  rw [safe_delete]
  split
  · exact Nat.le_refl _
  · split
    · exact Nat.le_refl _
    · split
      · exact Nat.le_refl _
      · exact markedCount_deleteMsgs_le chat _

theorem selfWindow_subset {m : Message} {chat : List Message}
    (h : m ∈ selfWindow chat) : m ∈ chat := by
  rw [selfWindow] at h
  exact List.mem_of_mem_filter (List.take_sublist 10 _ |>.mem h)

theorem markedCount_strip_le (f : Failures) (chat : List Message)
    (hids : (chat.map (·.id)).Nodup) :
    markedCount (strip_marker_from_last_message f chat).2 ≤ markedCount chat := by
  rw [strip_marker_from_last_message]
  split
  · exact Nat.le_refl _
  · rename_i msg hfind
    split
    · exact Nat.le_refl _
    · have hmem : msg ∈ chat := selfWindow_subset (List.mem_of_find?_eq_some hfind)
      have hmarked : endsWithMarker msg.text = true := by
        have h3 := List.find?_some hfind
        rw [isMarked, Bool.and_eq_true] at h3
        exact h3.2
      refine markedCount_editMsg_le fun m hm hid _ => ?_
      have : m = msg := List.inj_on_of_nodup_map hids hm hmem hid
      rw [this, hmarked]

theorem archive_messages_no_edit (f : Failures) (msgs : List Message) :
    ∀ a ∈ archive_messages f msgs, a.isEdit = false := by
  rw [archive_messages]
  split
  · intro a ha; cases ha
  · intro a ha
    rw [List.mem_singleton] at ha
    rw [ha]; rfl

theorem safe_delete_no_edit (f : Failures) (dry : Bool) (msgs chat : List Message) :
    ∀ a ∈ (safe_delete f dry msgs chat).1, a.isEdit = false := by
  rw [safe_delete]
  split
  · intro a ha; cases ha
  · split
    · intro a ha; cases ha
    · have htr : ∀ a ∈ archive_messages f msgs ++
          [StoreCall.delete (msgs.map (·.id)) (!f.delete)], a.isEdit = false := by
        intro a ha
        rcases List.mem_append.1 ha with h | h
        · exact archive_messages_no_edit f msgs a h
        · rw [List.mem_singleton] at h
          rw [h]; rfl
      split
      · exact htr
      · exact htr

theorem safe_delete_trace_eq (f : Failures) (msgs chat : List Message)
    (h : msgs.isEmpty = false) :
    (safe_delete f false msgs chat).1
      = archive_messages f msgs ++ [StoreCall.delete (msgs.map (·.id)) (!f.delete)] := by
  rw [safe_delete, if_neg (by simp [h]), if_neg (by simp)]
  by_cases hd : f.delete <;> simp [hd]

theorem collect_fixed_eq_none_iff (l : List Message) :
    collect_fixed l = none ↔ ∃ m ∈ l, is_plain_text m = false := by
  induction l with
  | nil => simp [collect_fixed]
  | cons a l ih =>
    rw [collect_fixed]
    by_cases h : is_plain_text a
    · rw [if_pos h, Option.map_eq_none', ih]
      constructor
      · rintro ⟨m, hm, hp⟩; exact ⟨m, List.mem_cons_of_mem a hm, hp⟩
      · rintro ⟨m, hm, hp⟩
        rcases List.mem_cons.1 hm with hma | hml
        · subst hma; rw [h] at hp; cases hp
        · exact ⟨m, hml, hp⟩
    · rw [if_neg h]
      exact ⟨fun _ => ⟨a, List.mem_cons_self a l, by simpa using h⟩, fun _ => rfl⟩

theorem collect_smart_eq_takeWhile (l : List Message) :
    collect_smart l = l.takeWhile fun m => m.out && is_plain_text m := by
  induction l with
  | nil => rfl
  | cons a l ih =>
    rw [collect_smart, List.takeWhile_cons]
    split
    · rw [ih]
    · rfl

theorem toLower_idem (c : Char) : Char.toLower (Char.toLower c) = Char.toLower c := by
  unfold Char.toLower
  by_cases h : c.toNat ≥ 65 ∧ c.toNat ≤ 90
  · have hv : (c.toNat + 32).isValidChar := Or.inl (by omega)
    have h2 : (Char.ofNat (c.toNat + 32)).toNat = c.toNat + 32 := by
      rw [Char.ofNat, dif_pos hv]; rfl
    simp only [if_pos h, h2]
    rw [if_neg (by omega)]
  · simp only [if_neg h]

theorem deleteMsgs_cmd (event : Message) (older : List Message)
    (hid : ∀ m ∈ older, m.id ≠ event.id) :
    deleteMsgs (event :: older) [event.id] = older := by
  rw [deleteMsgs, List.filter_cons, if_neg (by simp)]
  exact List.filter_eq_self.2 fun m hm => by simp [hid m hm]

theorem safe_delete_noFail_single (event : Message) (older : List Message)
    (hid : ∀ m ∈ older, m.id ≠ event.id) :
    safe_delete noFail false [event] (event :: older)
      = ([StoreCall.archive [event.id] true, StoreCall.delete [event.id] true], older) := by
  rw [safe_delete, if_neg (by simp), if_neg (by simp), if_neg (by simp [noFail])]
  have hmap : List.map (fun x => x.id) [event] = [event.id] := rfl
  rw [hmap, deleteMsgs_cmd event older hid]
  rfl

/-! ### Claims -/

/-- Claim C1 (code_bug evaluation): the claim says a failed archive write must
skip the Message Store delete and surface the failure; in the source,
`archive_messages` catches the database exception internally (printing
`CRITICAL: ...` and returning normally), so `safe_delete` cannot see the
failure and issues the delete anyway.  Evaluated at a one-message batch with
dry-run disabled and a failing archive write: the trace shows the failed
archive write followed by the issued (and successful) delete, and the message
is gone from the chat. -/
theorem C1_archive_failure_delete_still_issued :
    safe_delete failArchive false [c1msg] [c1msg]
      = ([StoreCall.archive [7] false, StoreCall.delete [7] true], []) := by decide

/-- Claim C4 (code_bug evaluation): the claim says that with dry-run enabled no
edit, delete, or archive write occurs for any command; but `toggle_autosquash`
edits the command message into a status text unconditionally (lines 155/159),
and the off branch runs the marker-strip edit (line 162) unconditionally —
only the final `safe_delete` honours dry-run.  Evaluated with dry-run on:
`!autosquash on` issues one edit call, and `!autosquash off` with an open
chain issues two. -/
theorem C4_dry_run_toggle_edits :
    (toggle_autosquash true noFail true w4cmd []).2.1.countP StoreCall.isEdit = 1 ∧
    (toggle_autosquash true noFail false w4off [w4marked]).2.1.countP StoreCall.isEdit = 2 := by
  decide

/-- Claim C5: for `!squash n` with `n ≥ 1`, if any of the n most recent
outgoing messages preceding the command is not strictly plain text, the whole
operation aborts: the trace is exactly the archive-and-delete of the command
message alone, and the rest of the chat (including all n inspected messages)
is returned unchanged. -/
theorem C5_fixed_n_abort (f : Failures) (event : Message) (older : List Message)
    (n : Nat) (hn : 1 ≤ n)
    (habort : ∃ m ∈ (older.filter (·.out)).take n, is_plain_text m = false)
    (hid : ∀ m ∈ older, m.id ≠ event.id) (hf : f = noFail) :
    squash_handler false f event older (some n)
      = ([StoreCall.archive [event.id] true, StoreCall.delete [event.id] true], older) := by
  subst hf
  have hcoll : collect_fixed ((older.filter (·.out)).take n) = none :=
    (collect_fixed_eq_none_iff _).2 habort
  simp only [squash_handler, squash_collected, if_neg (show ¬n < 1 by omega), hcoll]
  exact safe_delete_noFail_single event older hid

/-- Claim C5 witness: three recent outgoing messages with media in the middle;
`!squash 3` removes only the command message. -/
theorem C5_witness :
    squash_handler false noFail w5cmd [w5c, w5b, w5a] (some 3)
      = ([StoreCall.archive [14] true, StoreCall.delete [14] true], [w5c, w5b, w5a]) :=
  C5_fixed_n_abort noFail w5cmd [w5c, w5b, w5a] 3 (by decide)
    ⟨w5b, by decide, by decide⟩ (by decide) rfl

/-- Claim C6: smart squash collects exactly the maximal run of consecutive
outgoing strictly-plain-text messages immediately preceding the command,
within a 100-message window (`takeWhile` over the window); in particular with
outgoing plain A,B,C then incoming D then outgoing E (newest first below the
command), invoking after E collects only {E}, and invoking after C collects
{A,B,C}. -/
theorem C6_smart_collection :
    (∀ older : List Message,
      squash_collected older none
        = some ((older.take 100).takeWhile fun m => m.out && is_plain_text m)) ∧
    squash_collected [w6e, w6d, w6c, w6b, w6a] none = some [w6e] ∧
    squash_collected [w6c, w6b, w6a] none = some [w6c, w6b, w6a] := by
  refine ⟨fun older => ?_, by decide, by decide⟩
  rw [squash_collected, collect_smart_eq_takeWhile]

/-- Claim C8: whenever the combined newline-joined marker-stripped text the
squash engine computes equals the target (oldest collected) message's existing
text, the handler issues no edit call on any path. -/
theorem C8_no_edit_on_noop (dry : Bool) (f : Failures) (event : Message)
    (older : List Message) (nOpt : Option Nat)
    (hnoop : (squash_merge_plan older nOpt).all (fun p => p.2.2 == p.1.text) = true) :
    ∀ a ∈ (squash_handler dry f event older nOpt).1, a.isEdit = false := by
  cases hc : squash_collected older nOpt with
  | none =>
    simp only [squash_handler, hc]
    exact safe_delete_no_edit f dry [event] (event :: older)
  | some collected =>
    simp only [squash_handler, hc]
    cases hrev : collected.reverse with
    | nil =>
      simp only [squash_core, hrev]
      exact safe_delete_no_edit f dry [event] (event :: older)
    | cons target rest =>
      simp only [squash_core, hrev]
      have hcomb : joinNL (stripOnce target.text ::
          List.map (fun m => stripOnce m.text) rest) = target.text := by
        simp only [squash_merge_plan, hc, hrev] at hnoop
        simpa using hnoop
      split
      · exact safe_delete_no_edit f dry [event] (event :: older)
      · split
        · intro a ha; cases ha
        · rw [if_neg (by simp [hcomb])]
          exact safe_delete_no_edit f false (rest ++ [event]) (event :: older)

/-- Claim C8 witness: a single collected unmarked message; the squash run
issues archive and delete calls but no edit. -/
theorem C8_witness :
    (squash_handler false noFail w8cmd [w8a] none).1.countP StoreCall.isEdit = 0 := by
  have h := C8_no_edit_on_noop false noFail w8cmd [w8a] none (by decide)
  exact List.countP_eq_zero.2 fun a ha => by simp [h a ha]

/-- Claim C9 (counterexample): `!SQUASH` differs from the recognized `!squash`
only in the letter case of the keyword, yet the dispatch pattern
`^!squash(?:\s+(\d+))?\s*$` (which has no `(?i)` flag) rejects it, so the
message is not handled as a command. -/
theorem C9_counterexample :
    matchSquashCmd "!SQUASH".data = none ∧
    matchSquashCmd "!squash".data = some none := by decide

/-- Claim C9 (amended): only the `!autosquash on|off` keyword is matched
case-insensitively (lowercasing the text leaves its dispatch unchanged, and
mixed-case variants are accepted); the `!squash [n]` pattern is
case-sensitive, so only the exact lowercase keyword is recognized. -/
theorem C9_amended_case_rules :
    (∀ t : Text, matchAutosquashCmd (t.map Char.toLower) = matchAutosquashCmd t) ∧
    matchAutosquashCmd "!AUTOSQUASH ON".data = some true ∧
    matchAutosquashCmd "!AutoSquash oFf".data = some false ∧
    matchSquashCmd "!Squash 3".data = none ∧
    matchSquashCmd "!squash 3".data = some (some 3) := by
  refine ⟨fun t => ?_, by decide, by decide, by decide, by decide⟩
  have hmm : (t.map Char.toLower).map Char.toLower = t.map Char.toLower := by
    rw [List.map_map]
    exact List.map_congr_left fun a _ => toLower_idem a
  simp only [matchAutosquashCmd, hmm]

/-- Claim C10: `strip_marker_from_last_message` looks only at the
10-message window of recent self messages; if no message there is marked it
does nothing (and raises nothing), otherwise it edits exactly the newest
marked one, removing exactly the marker suffix, and every other message of the
chat is still present unchanged. -/
theorem C10_strip_marker_behavior (f : Failures) (chat : List Message)
    (hf : f.stripEdit = false) :
    ((selfWindow chat).find? isMarked = none →
      strip_marker_from_last_message f chat = ([], chat)) ∧
    ∀ msg, (selfWindow chat).find? isMarked = some msg →
      (strip_marker_from_last_message f chat).1
          = [StoreCall.edit msg.id (dropLastN msg.text MARKER.length) true] ∧
      dropLastN msg.text MARKER.length ++ MARKER = msg.text ∧
      (strip_marker_from_last_message f chat).2
          = editMsg chat msg.id (dropLastN msg.text MARKER.length) ∧
      ∀ m ∈ chat, m.id ≠ msg.id → m ∈ (strip_marker_from_last_message f chat).2 := by
  constructor
  · intro hnone
    rw [strip_marker_from_last_message, hnone]
  · intro msg hfind
    have hmarked : endsWithMarker msg.text = true := by
      have h3 := List.find?_some hfind
      rw [isMarked, Bool.and_eq_true] at h3
      exact h3.2
    simp only [strip_marker_from_last_message, hfind, hf, Bool.false_eq_true, if_false]
    refine ⟨by trivial, strip_append_marker hmarked, by trivial, ?_⟩
    intro m hm hne
    rw [editMsg]
    exact List.mem_map.2 ⟨m, hm, by simp [hne]⟩

/-- Claim C10 witness: an empty chat strips nothing; a chat whose two self
messages are both marked gets exactly the newer one edited. -/
theorem C10_witness :
    strip_marker_from_last_message noFail [] = ([], []) ∧
    (strip_marker_from_last_message noFail [w10marked, w10old]).1
        = [StoreCall.edit 2 (dropLastN w10marked.text MARKER.length) true] := by
  refine ⟨(C10_strip_marker_behavior noFail [] rfl).1 (by decide), ?_⟩
  exact ((C10_strip_marker_behavior noFail [w10marked, w10old] rfl).2 w10marked (by decide)).1

theorem safe_delete_mem_delete (f : Failures) (msgs chat : List Message)
    (event : Message) (hmem : event ∈ msgs) :
    ∃ ids ok, StoreCall.delete ids ok ∈ (safe_delete f false msgs chat).1 ∧
      event.id ∈ ids := by
  have hne : msgs.isEmpty = false := by
    cases msgs with
    | nil => cases hmem
    | cons a l => rfl
  refine ⟨msgs.map (·.id), !f.delete, ?_, List.mem_map_of_mem _ hmem⟩
  rw [safe_delete_trace_eq f msgs chat hne]
  exact List.mem_append.2 (Or.inr (List.mem_singleton.2 rfl))

/-- Claim C7 (counterexample): a `!squash` run outside dry-run in which the
target-message edit raises: the handler-level `except` (line 242) is entered
before `safe_delete` runs, so no delete call at all is issued and the command
message is still in the chat — contradicting "the command message is deleted
on every execution path". -/
theorem C7_counterexample :
    (squash_handler false failTargetEdit w7cmd [w7b, w7a] none).1.countP
        StoreCall.isDelete = 0 ∧
    w7cmd ∈ (squash_handler false failTargetEdit w7cmd [w7b, w7a] none).2 := by
  decide

/-- Claim C7 (amended): outside dry-run, provided the target-message edit does
not raise, a delete call whose id list contains the command message's id is
issued on every execution path (success, nothing collected, `n < 1`, fixed-n
abort, length abort, and the skip-edit path); when the target edit raises, the
command message is not deleted at all. -/
theorem C7_command_cleanup (f : Failures) (event : Message)
    (older : List Message) (nOpt : Option Nat) (hf : f.targetEdit = false) :
    ∃ ids ok, StoreCall.delete ids ok ∈ (squash_handler false f event older nOpt).1 ∧
      event.id ∈ ids := by
  cases hc : squash_collected older nOpt with
  | none =>
    simp only [squash_handler, hc]
    exact safe_delete_mem_delete f [event] _ event (List.mem_singleton.2 rfl)
  | some collected =>
    simp only [squash_handler, hc]
    cases hrev : collected.reverse with
    | nil =>
      simp only [squash_core, hrev]
      exact safe_delete_mem_delete f [event] _ event (List.mem_singleton.2 rfl)
    | cons target rest =>
      simp only [squash_core, hrev, Bool.false_eq_true, if_false]
      split
      · exact safe_delete_mem_delete f [event] _ event (List.mem_singleton.2 rfl)
      · split
        · simp only [hf, Bool.false_eq_true, if_false]
          obtain ⟨ids, ok, hmem, hid⟩ :=
            safe_delete_mem_delete f (rest ++ [event]) _ event
              (List.mem_append.2 (Or.inr (List.mem_singleton.2 rfl)))
          exact ⟨ids, ok, List.mem_cons_of_mem _ hmem, hid⟩
        · exact safe_delete_mem_delete f (rest ++ [event]) _ event
            (List.mem_append.2 (Or.inr (List.mem_singleton.2 rfl)))

/-- Claim C7 witness: a smart squash of two plain messages with no failures;
the issued delete batch contains the command message's id. -/
theorem C7_witness :
    ∃ ids ok, StoreCall.delete ids ok ∈
        (squash_handler false noFail w7cmd [w7b, w7a] none).1 ∧
      w7cmd.id ∈ ids :=
  C7_command_cleanup noFail w7cmd [w7b, w7a] none rfl

theorem editMsg_head (a : Message) (l : List Message) (t : Text)
    (h2 : ∀ m ∈ l, m.id ≠ a.id) :
    editMsg (a :: l) a.id t = { a with text := t } :: l := by
  rw [editMsg_cons, if_pos rfl, editMsg_of_forall_ne h2]

theorem editMsg_cons_cons (a b : Message) (l : List Message) (t : Text)
    (h1 : a.id ≠ b.id) (h2 : ∀ m ∈ l, m.id ≠ b.id) :
    editMsg (a :: b :: l) b.id t = a :: { b with text := t } :: l := by
  rw [editMsg_cons, if_neg h1, editMsg_cons, if_pos rfl, editMsg_of_forall_ne h2]

theorem watcher_merge_rotate_eq (event prev : Message) (rest : List Message)
    (hcmd : is_command_text event.text = false)
    (hplain : is_plain_text event = true)
    (hprev : (prev.out && is_plain_text prev && endsWithMarker prev.text) = true)
    (hep : event.id ≠ prev.id)
    (hrp : ∀ m ∈ rest, m.id ≠ prev.id)
    (hre : ∀ m ∈ rest, m.id ≠ event.id) :
    ((merge_combined prev event).length ≤ 4096 →
      autosquash_watcher true false noFail event (prev :: rest)
        = ([StoreCall.edit prev.id (merge_combined prev event) true,
            StoreCall.archive [event.id] true, StoreCall.delete [event.id] true],
           { prev with text := merge_combined prev event } :: rest)) ∧
    (4096 < (merge_combined prev event).length →
      autosquash_watcher true false noFail event (prev :: rest)
        = ([StoreCall.edit prev.id (dropLastN prev.text MARKER.length) true,
            StoreCall.edit event.id (event.text ++ MARKER) true],
           { event with text := event.text ++ MARKER } ::
             { prev with text := dropLastN prev.text MARKER.length } :: rest)) := by
  have hid1 : ∀ m ∈ ({ prev with text := merge_combined prev event } :: rest),
      m.id ≠ event.id := by
    intro m hm
    rcases List.mem_cons.1 hm with h | h
    · subst h; exact hep.symm
    · exact hre m h
  have hid2 : ∀ m ∈ ({ prev with text := dropLastN prev.text MARKER.length } :: rest),
      m.id ≠ event.id := by
    intro m hm
    rcases List.mem_cons.1 hm with h | h
    · subst h; exact hep.symm
    · exact hre m h
  have hfold : dropLastN prev.text MARKER.length ++ '\n' :: (event.text ++ MARKER)
      = merge_combined prev event := rfl
  constructor
  · intro hlen
    unfold autosquash_watcher
    rw [if_neg (by simp [hcmd])]
    simp only [Bool.not_true, Bool.false_eq_true, if_false]
    rw [if_neg (by simp [hplain])]
    simp only [List.head?_cons]
    rw [if_pos hprev, hfold, if_pos hlen]
    rw [if_neg (show ¬noFail.prevEdit = true by simp [noFail])]
    rw [editMsg_cons_cons event prev rest _ hep hrp]
    rw [safe_delete_noFail_single event _ hid1]
  · intro hlen
    unfold autosquash_watcher
    rw [if_neg (by simp [hcmd])]
    simp only [Bool.not_true, Bool.false_eq_true, if_false]
    rw [if_neg (by simp [hplain])]
    simp only [List.head?_cons]
    rw [if_pos hprev, hfold]
    rw [if_neg (show ¬(merge_combined prev event).length ≤ 4096 by omega)]
    rw [if_neg (show ¬noFail.prevEdit = true by simp [noFail])]
    rw [editMsg_cons_cons event prev rest _ hep hrp]
    rw [mark_event, if_neg (show ¬noFail.eventEdit = true by simp [noFail])]
    rw [editMsg_head event _ _ hid2]

theorem bigText_cons : bigText = 'a' :: List.replicate 4092 'a' := by
  rw [bigText, show (4093 : Nat) = 4092 + 1 from rfl, List.replicate_succ]

theorem bigText_length : bigText.length = 4093 := by
  rw [bigText, List.length_replicate]

theorem is_command_text_bigText : is_command_text bigText = false := by
  have h1 : "!squash".data = ['!', 's', 'q', 'u', 'a', 's', 'h'] := by decide
  have h2 : "!autosquash".data
      = ['!', 'a', 'u', 't', 'o', 's', 'q', 'u', 'a', 's', 'h'] := by decide
  have hca : ('!' == 'a') = false := by decide
  have hlo : Char.toLower 'a' = 'a' := by decide
  rw [is_command_text, h1, h2, bigText_cons, List.map_cons, hlo]
  simp [List.isPrefixOf, hca]

theorem is_plain_text_bigEvent : is_plain_text bigEvent = true := by
  have h1 : bigEvent.text = bigText := rfl
  have h2 : bigEvent.media = false := rfl
  have h3 : bigEvent.fwd_from = false := rfl
  rw [is_plain_text, h1, h2, h3, bigText_cons]
  rfl

theorem merge_combined_big_length :
    (merge_combined prevAnchor bigEvent).length = 4099 := by
  have hpa : prevAnchor.text = "p".data ++ MARKER := rfl
  have hbe : bigEvent.text = bigText := rfl
  have hp1 : ("p".data).length = 1 := by decide
  have hm4 : MARKER.length = 4 := by decide
  rw [merge_combined, hpa, hbe, dropLastN_append]
  rw [List.length_append, hp1, List.length_cons, List.length_append,
    bigText_length, hm4]

/-- Claim C3 (counterexample): a marked previous message and a freshly sent
4093-character plain-text message: the merge text would have length 4099 >
4096, so a rotation occurs, and the new anchor (the event with the marker
appended) has text length 4097 > 4096 — contradicting "in all cases the
anchor's text after the operation does not exceed the maximum length". -/
theorem C3_counterexample :
    (autosquash_watcher true false noFail bigEvent [prevAnchor]).2.head?
        = some { bigEvent with text := bigEvent.text ++ MARKER } ∧
    endsWithMarker (bigEvent.text ++ MARKER) = true ∧
    4096 < (bigEvent.text ++ MARKER).length := by
  have hrot := (watcher_merge_rotate_eq bigEvent prevAnchor [] is_command_text_bigText
    is_plain_text_bigEvent (by decide) (by decide) (by simp) (by simp)).2
      (by rw [merge_combined_big_length]; omega)
  refine ⟨by rw [hrot]; rfl, endsWithMarker_append _, ?_⟩
  have hbe : bigEvent.text = bigText := rfl
  have hlen : (bigEvent.text ++ MARKER).length = 4097 := by
    rw [hbe, List.length_append, bigText_length]
    decide
  omega

/-- Claim C3 (amended): for an autosquash merge attempt of a plain-text
non-command outgoing message into a marked previous message (no store-call
failures, distinct message ids): if the combined text is at most 4096
characters the previous message is edited to hold it and the event is
archived then deleted, so the anchor's text is the combined text (≤ 4096);
otherwise a rotation occurs — the previous message's text is changed exactly
by removing its marker, and the event becomes the new anchor with the marker
appended, whose length is the event text's length plus the marker length
(within the maximum only when the event text has at most 4092 characters). -/
theorem C3_merge_length_behavior (event prev : Message) (rest : List Message)
    (hcmd : is_command_text event.text = false)
    (hplain : is_plain_text event = true)
    (hprev : (prev.out && is_plain_text prev && endsWithMarker prev.text) = true)
    (hids : ((event :: prev :: rest).map (·.id)).Nodup) :
    ((merge_combined prev event).length ≤ 4096 →
      autosquash_watcher true false noFail event (prev :: rest)
        = ([StoreCall.edit prev.id (merge_combined prev event) true,
            StoreCall.archive [event.id] true, StoreCall.delete [event.id] true],
           { prev with text := merge_combined prev event } :: rest)) ∧
    (4096 < (merge_combined prev event).length →
      autosquash_watcher true false noFail event (prev :: rest)
        = ([StoreCall.edit prev.id (dropLastN prev.text MARKER.length) true,
            StoreCall.edit event.id (event.text ++ MARKER) true],
           { event with text := event.text ++ MARKER } ::
             { prev with text := dropLastN prev.text MARKER.length } :: rest) ∧
      dropLastN prev.text MARKER.length ++ MARKER = prev.text ∧
      (event.text ++ MARKER).length = event.text.length + MARKER.length) := by
  rw [List.map_cons, List.map_cons, List.nodup_cons, List.nodup_cons] at hids
  obtain ⟨hev, hpr, -⟩ := hids
  have hep : event.id ≠ prev.id := fun h => hev (h ▸ List.mem_cons_self _ _)
  have hrp : ∀ m ∈ rest, m.id ≠ prev.id := fun m hm h =>
    hpr (h ▸ List.mem_map_of_mem _ hm)
  have hre : ∀ m ∈ rest, m.id ≠ event.id := fun m hm h =>
    hev (List.mem_cons_of_mem _ (h ▸ List.mem_map_of_mem _ hm))
  have hmarked : endsWithMarker prev.text = true := by
    rw [Bool.and_eq_true] at hprev
    exact hprev.2
  have hmain := watcher_merge_rotate_eq event prev rest hcmd hplain hprev hep hrp hre
  exact ⟨hmain.1, fun hlen => ⟨hmain.2 hlen, strip_append_marker hmarked,
    by rw [List.length_append]⟩⟩

/-- Claim C3 witness: a small merge — previous anchor `one<marker>`, new
message `two`; the combined text fits and the previous message absorbs it
while the event is archived and deleted. -/
theorem C3_witness :
    autosquash_watcher true false noFail w3event [w3prev]
      = ([StoreCall.edit 81 (merge_combined w3prev w3event) true,
          StoreCall.archive [82] true, StoreCall.delete [82] true],
         [{ w3prev with text := merge_combined w3prev w3event }]) :=
  (C3_merge_length_behavior w3event w3prev [] (by decide) (by decide) (by decide)
    (by decide)).1 (by decide)

/-- Claim C2 (counterexample): a chat with exactly one marked message (the
anchor `a<marker>`) that is separated from new traffic by an outgoing message
`!squashx` — a text every handler ignores (the watcher skips it as a command
prefix and no command pattern matches it).  A completed watcher invocation on
a new plain message `hello` with no failing store call takes the new-chain
branch (the immediate predecessor is unmarked) and marks `hello`, leaving two
marked messages in the chat. -/
theorem C2_counterexample :
    markedCount (c2new :: [c2mid, c2anchor]) = 1 ∧
    markedCount (autosquash_watcher true false noFail c2new [c2mid, c2anchor]).2 = 2 := by
  decide

/-- Claim C2 (amended): chain exclusivity holds per completed handler
invocation under the hypotheses the code actually needs: message ids are
distinct and at most one message is marked beforehand; for the watcher, no
store call fails and any marked history message is the chat's most recent
message and is outgoing plain text, and no message hides a second marker
under its marker; for squash, no store call fails and the combined text the
engine would write does not itself end with the marker.  Then the
incoming-boundary strip, every watcher branch (merge, rotation, new chain,
non-plain strip), and the squash handler each leave at most one marked
message in the chat. -/
theorem C2_chain_exclusivity :
    (∀ (enabled : Bool) (f : Failures) (chat : List Message),
      (chat.map (·.id)).Nodup → markedCount chat ≤ 1 →
      markedCount (incoming_boundary_handler enabled f chat).2 ≤ 1) ∧
    (∀ (enabled dry : Bool) (event : Message) (older : List Message),
      ((event :: older).map (·.id)).Nodup →
      markedCount (event :: older) ≤ 1 →
      (∀ m ∈ older, endsWithMarker m.text = true →
        older.head? = some m ∧ m.out = true ∧ is_plain_text m = true) →
      (∀ m ∈ older, endsWithMarker (dropLastN m.text MARKER.length) = false) →
      markedCount (autosquash_watcher enabled dry noFail event older).2 ≤ 1) ∧
    (∀ (dry : Bool) (event : Message) (older : List Message) (nOpt : Option Nat),
      ((event :: older).map (·.id)).Nodup →
      markedCount (event :: older) ≤ 1 →
      (squash_merge_plan older nOpt).all (fun p => !endsWithMarker p.2.2) = true →
      markedCount (squash_handler dry noFail event older nOpt).2 ≤ 1) := by
  refine ⟨?_, ?_, ?_⟩
  · intro enabled f chat hN h1
    rw [incoming_boundary_handler]
    split
    · exact h1
    · exact le_trans (markedCount_strip_le f chat hN) h1
  · intro enabled dry event older hN h1 hadj hwf
    unfold autosquash_watcher
    split
    · exact h1
    · split
      · exact h1
      · split
        · exact h1
        · split
          · exact le_trans (markedCount_strip_le noFail _ hN) h1
          · cases older with
            | nil =>
              simp only [List.head?_nil]
              rw [mark_event, if_neg (show ¬noFail.eventEdit = true by simp [noFail])]
              rw [editMsg_head event [] _ (by intro m hm; cases hm)]
              exact List.countP_le_length _
            | cons prev rest =>
              have hN2 := hN
              rw [List.map_cons, List.map_cons, List.nodup_cons, List.nodup_cons] at hN2
              obtain ⟨hev, hpr, -⟩ := hN2
              have hep : event.id ≠ prev.id := fun h => hev (h ▸ List.mem_cons_self _ _)
              have hrp : ∀ m ∈ rest, m.id ≠ prev.id := fun m hm h =>
                hpr (h ▸ List.mem_map_of_mem _ hm)
              have hre : ∀ m ∈ rest, m.id ≠ event.id := fun m hm h =>
                hev (List.mem_cons_of_mem _ (h ▸ List.mem_map_of_mem _ hm))
              have hte : ∀ m ∈ ({ prev with text := dropLastN prev.text MARKER.length } :: rest),
                  m.id ≠ event.id := by
                intro m hm
                rcases List.mem_cons.1 hm with h | h
                · subst h; exact hep.symm
                · exact hre m h
              have hpe : ∀ m ∈ (prev :: rest), m.id ≠ event.id := by
                intro m hm
                rcases List.mem_cons.1 hm with h | h
                · subst h; exact hep.symm
                · exact hre m h
              simp only [List.head?_cons]
              split
              · rename_i hsm
                have hmarked : endsWithMarker prev.text = true := by
                  rw [Bool.and_eq_true] at hsm
                  exact hsm.2
                split
                · split
                  · rename_i hfl
                    exact absurd hfl (by simp [noFail])
                  · refine le_trans (markedCount_safe_delete_le _ _ _ _) ?_
                    refine le_trans (markedCount_editMsg_le ?_) h1
                    intro m hm hid _
                    have hpmem : prev ∈ event :: prev :: rest :=
                      List.mem_cons_of_mem _ (List.mem_cons_self _ _)
                    have : m = prev := List.inj_on_of_nodup_map hN hm hpmem hid
                    rw [this, hmarked]
                · split
                  · rename_i hfl
                    exact absurd hfl (by simp [noFail])
                  · rw [editMsg_cons_cons event prev rest _ hep hrp]
                    rw [mark_event, if_neg (show ¬noFail.eventEdit = true by simp [noFail])]
                    rw [editMsg_head event _ _ hte]
                    have hclean : endsWithMarker
                        (dropLastN prev.text MARKER.length) = false :=
                      hwf prev (List.mem_cons_self _ _)
                    have hrest : markedCount rest = 0 := by
                      have hx := h1
                      rw [markedCount_cons, markedCount_cons, if_pos hmarked] at hx
                      omega
                    rw [markedCount_cons, markedCount_cons, hrest, if_neg (by simp [hclean])]
                    split <;> omega
              · rename_i hsm
                rw [mark_event, if_neg (show ¬noFail.eventEdit = true by simp [noFail])]
                rw [editMsg_head event _ _ hpe]
                have hz : markedCount (prev :: rest) = 0 := by
                  refine List.countP_eq_zero.2 fun m hm hmk => ?_
                  obtain ⟨hh, hout, hpl⟩ := hadj m hm hmk
                  have hmp : m = prev := by
                    rw [List.head?_cons] at hh
                    exact (Option.some.inj hh).symm
                  subst hmp
                  exact hsm (by rw [hout, hpl, hmk]; rfl)
                rw [markedCount_cons, hz]
                split <;> omega
  · intro dry event older nOpt hN h1 hplan
    cases hc : squash_collected older nOpt with
    | none =>
      simp only [squash_handler, hc]
      exact le_trans (markedCount_safe_delete_le _ _ _ _) h1
    | some collected =>
      simp only [squash_handler, hc]
      cases hrev : collected.reverse with
      | nil =>
        simp only [squash_core, hrev]
        exact le_trans (markedCount_safe_delete_le _ _ _ _) h1
      | cons target rest =>
        simp only [squash_core, hrev]
        have hcombu : endsWithMarker (joinNL (stripOnce target.text ::
            List.map (fun m => stripOnce m.text) rest)) = false := by
          simp only [squash_merge_plan, hc, hrev] at hplan
          simpa using hplan
        split
        · exact le_trans (markedCount_safe_delete_le _ _ _ _) h1
        · split
          · exact h1
          · split
            · split
              · rename_i hfl
                exact absurd hfl (by simp [noFail])
              · refine le_trans (markedCount_safe_delete_le _ _ _ _) ?_
                exact le_trans (markedCount_editMsg_le_of_unmarked hcombu) h1
            · exact le_trans (markedCount_safe_delete_le _ _ _ _) h1

/-- Claim C2 witness: one marked anchor; an incoming message, a watcher merge,
and a smart squash each leave at most one marked message. -/
theorem C2_witness :
    markedCount (incoming_boundary_handler true noFail [w2in, w2anchor]).2 ≤ 1 ∧
    markedCount (autosquash_watcher true false noFail w2event [w2anchor]).2 ≤ 1 ∧
    markedCount (squash_handler false noFail w2cmd [w2anchor] none).2 ≤ 1 :=
  ⟨C2_chain_exclusivity.1 true noFail [w2in, w2anchor] (by decide) (by decide),
   C2_chain_exclusivity.2.1 true false w2event [w2anchor] (by decide) (by decide)
     (by decide) (by decide),
   C2_chain_exclusivity.2.2 false w2cmd [w2anchor] none (by decide) (by decide)
     (by decide)⟩
